import Mathlib

/-! Formal model of the retro-cue working-memory task implementation
(`experiment_run.py`, `drawing_and_timing.py`, `counterbalancing.py`).

Python floats are modelled exactly as rationals and Python ints as
integers.  The global random generator is modelled as an explicit stream
of raw integer draws fed through `randint`, and the unbounded `while`
loops of the samplers as fuel-indexed recursions: the fuel counts loop
iterations, and a result of `none` means the loop is still running after
that many iterations (the real loop has not returned and has raised
nothing).  Screen and clock effects are modelled as explicit event
traces. -/

/-- Python float `x % m` for a positive modulus `m`:
`x - m * floor (x / m)`, which lies in `[0, m)`.  This is the semantics
of the `%` operator applied to floats in the source. -/
def qmod (a b : ℚ) : ℚ := a - b * ⌊a / b⌋

/-- Python 3 `round` (round half to even) on an exact rational, composed
with `int`: the semantics of `int(round(x))` in `hsv_to_rgb`. -/
def pyRound (q : ℚ) : ℤ :=
  if q - ⌊q⌋ < 1/2 then ⌊q⌋
  else if 1/2 < q - ⌊q⌋ then ⌊q⌋ + 1
  else if ⌊q⌋ % 2 = 0 then ⌊q⌋ else ⌊q⌋ + 1

/-- Body of `hsv_to_rgb` (drawing_and_timing.py) after the initial
`h = h % 360` normalization: sector decomposition of the hue with chroma
`c = v * s`, secondary component `x`, and match value `m = v - c`,
each channel rounded to an integer with `int(round(...))`. -/
def hsvCore (h s v : ℚ) : ℤ × ℤ × ℤ :=
  let c := v * s
  let x := c * (1 - |qmod (h / 60) 2 - 1|)
  let m := v - c
  let rgbp : ℚ × ℚ × ℚ :=
    if h < 60 then (c, x, 0)
    else if h < 120 then (x, c, 0)
    else if h < 180 then (0, c, x)
    else if h < 240 then (0, x, c)
    else if h < 300 then (x, 0, c)
    else (c, 0, x)
  (pyRound ((rgbp.1 + m) * 255), pyRound ((rgbp.2.1 + m) * 255),
    pyRound ((rgbp.2.2 + m) * 255))

/-- `hsv_to_rgb(h, s, v)` from drawing_and_timing.py: the hue is first
reduced modulo 360, then converted sector-wise. -/
def hsv_to_rgb (h s v : ℚ) : ℤ × ℤ × ℤ := hsvCore (qmod h 360) s v

/-- `color_from_wheel(color_deg)` from drawing_and_timing.py: hue at full
saturation and value. -/
def color_from_wheel (color_deg : ℚ) : ℤ × ℤ × ℤ := hsv_to_rgb color_deg 1 1

/-- `circular_distance(a, b, period)` from experiment_run.py: smallest
distance between two angles on a circular scale. -/
def circular_distance (a b period : ℤ) : ℤ :=
  min (|a - b| % period) (period - |a - b| % period)

/-- Model of `random.randint(lo, hi)` (inclusive bounds): the raw draw
`r` of the random stream is reduced into `[lo, hi]`.  For `lo ≤ hi`
every value of the range is reachable by a suitable raw draw. -/
def randint (lo hi r : ℤ) : ℤ := lo + r % (hi - lo + 1)

/-- Acceptance test of `sample_orientations`: the candidate is kept when
`all(abs(cand - prev) >= min_sep for prev in chosen)`.  Note that this
is plain linear distance, with no mod-180 folding. -/
def ori_accept (minSep : ℤ) (chosen : List ℤ) (cand : ℤ) : Bool :=
  chosen.all fun prev => decide (minSep ≤ |cand - prev|)

/-- Acceptance test of `sample_colors`: the candidate is kept when
`all(circular_distance(cand, prev, 360) >= min_sep for prev in chosen)`. -/
def col_accept (minSep : ℤ) (chosen : List ℤ) (cand : ℤ) : Bool :=
  chosen.all fun prev => decide (minSep ≤ circular_distance cand prev 360)

/-- The common rejection-sampling `while` loop of `sample_orientations`
and `sample_colors`: while fewer than `n` values are chosen, draw a
candidate with `randint` from the raw stream `s` (`k` indexes the next
raw draw) and append it when `accept` holds.  The loop in the source has
no iteration bound; `fuel` counts loop iterations and `none` means the
loop is still running after `fuel` iterations. -/
def sample_loop (accept : List ℤ → ℤ → Bool) (n : ℕ) (lo hi : ℤ) (s : ℕ → ℤ) :
    ℕ → ℕ → List ℤ → Option (List ℤ)
  | 0, _, chosen => if n ≤ chosen.length then some chosen else none
  | fuel + 1, k, chosen =>
    if n ≤ chosen.length then some chosen
    else
      if accept chosen (randint lo hi (s k)) then
        sample_loop accept n lo hi s fuel (k + 1) (chosen ++ [randint lo hi (s k)])
      else
        sample_loop accept n lo hi s fuel (k + 1) chosen

/-- `sample_orientations(n, min_sep, lo, hi)` from experiment_run.py,
with the random stream and the iteration fuel made explicit. -/
def sample_orientations (fuel : ℕ) (s : ℕ → ℤ) (n : ℕ) (minSep lo hi : ℤ) :
    Option (List ℤ) :=
  sample_loop (ori_accept minSep) n lo hi s fuel 0 []

/-- `sample_colors(n, min_sep, lo, hi)` from experiment_run.py, with the
random stream and the iteration fuel made explicit. -/
def sample_colors (fuel : ℕ) (s : ℕ → ℤ) (n : ℕ) (minSep lo hi : ℤ) :
    Option (List ℤ) :=
  sample_loop (col_accept minSep) n lo hi s fuel 0 []

/-- `axial_abs_diff(a, b)` from `run_single_trial` (experiment_run.py):
`raw = abs(a - b) % 180; min(raw, 180 - raw)`. -/
def axial_abs_diff (a b : ℚ) : ℚ :=
  min (qmod |a - b| 180) (180 - qmod |a - b| 180)

/-- `CUE_TYPES` from experiment_run.py. -/
def CUE_TYPES : List String := ["spatial", "color", "no_cue"]

/-- `CUE_PROBE_DELAYS_MS` from experiment_run.py. -/
def CUE_PROBE_DELAYS_MS : List ℤ := [50, 200, 350, 500, 650]

/-- `REPEATS_PER_CONDITION` from experiment_run.py. -/
def REPEATS_PER_CONDITION : ℕ := 28

/-- `CUE_DURATION_MS` from experiment_run.py. -/
def CUE_DURATION_MS : ℤ := 100

/-- `ROTATION_SENSITIVITY` from experiment_run.py (0.4 degrees per
horizontal pixel moved). -/
def ROTATION_SENSITIVITY : ℚ := 2/5

/-- One scheduled trial (`{"cue_type": ..., "delay": ...}` dict built by
`build_trial_list`). -/
structure Trial where
  cue_type : String
  delay : ℤ
deriving DecidableEq

/-- `build_trial_list()` from experiment_run.py before the final
`random.shuffle`: nested loops over cue types, delays and repeats,
appending one trial per repeat.  The shuffle is modelled as an arbitrary
permutation of this list. -/
def build_trial_list : List Trial :=
  CUE_TYPES.flatMap fun c =>
    CUE_PROBE_DELAYS_MS.flatMap fun d =>
      List.replicate REPEATS_PER_CONDITION { cue_type := c, delay := d }

/-- Screen and clock effects issued by the timing helpers of
drawing_and_timing.py: clearing the backbuffer, drawing one stimulus
into it, flipping (`exp.screen.update()`), and blocking for a number of
milliseconds (`exp.clock.wait`). -/
inductive ScreenEvent
  | clear
  | draw (stim : ℕ)
  | flip
  | wait (ms : ℚ)
deriving DecidableEq

/-- Predicate picking out draw events. -/
def isDrawEvent : ScreenEvent → Bool
  | .draw _ => true
  | _ => false

/-- Predicate picking out flip events. -/
def isFlipEvent : ScreenEvent → Bool
  | .flip => true
  | _ => false

/-- Predicate picking out blocking wait events. -/
def isWaitEvent : ScreenEvent → Bool
  | .wait _ => true
  | _ => false

/-- Total blocked waiting time of an event trace. -/
def wait_total : List ScreenEvent → ℚ
  | [] => 0
  | ScreenEvent.clear :: rest => wait_total rest
  | ScreenEvent.draw _ :: rest => wait_total rest
  | ScreenEvent.flip :: rest => wait_total rest
  | ScreenEvent.wait m :: rest => m + wait_total rest

/-- `_blit_to_backbuffer(exp, stims)`: clear the backbuffer and draw
every stimulus into it, without flipping.  Stimuli are identified by
opaque numeric ids. -/
def blit_to_backbuffer (stims : List ℕ) : List ScreenEvent :=
  ScreenEvent.clear :: stims.map ScreenEvent.draw

/-- `_timed_draw(exp, stims)`: blit everything, flip once.  The measured
duration of this call is the `draw_time` input of `present_for_ms`. -/
def timed_draw (stims : List ℕ) : List ScreenEvent :=
  blit_to_backbuffer stims ++ [ScreenEvent.flip]

/-- Event trace of `present_for_ms(exp, stims, duration_ms)` from
drawing_and_timing.py, given the draw+flip time that `_timed_draw`
measures: return immediately when `duration_ms <= 0`, otherwise draw,
flip, and wait the remaining `duration_ms - draw_time` when positive. -/
def present_for_ms (stims : List ℕ) (draw_time duration_ms : ℚ) :
    List ScreenEvent :=
  if duration_ms ≤ 0 then []
  else
    timed_draw stims ++
      (if 0 < duration_ms - draw_time then
        [ScreenEvent.wait (duration_ms - draw_time)]
      else [])

/-- Wall-clock time consumed by a `present_for_ms` call: zero on the
early return, otherwise the measured draw+flip time plus the blocking
wait (when positive). -/
def present_elapsed_ms (draw_time duration_ms : ℚ) : ℚ :=
  if duration_ms ≤ 0 then 0
  else
    draw_time +
      (if 0 < duration_ms - draw_time then duration_ms - draw_time else 0)

/-- Stimuli presented during the cue phase of `run_single_trial`. -/
inductive CueStim
  | spatialArrows (target_pos : ℤ × ℤ)
  | colorSquare (rgb : ℤ × ℤ × ℤ)
  | blank
deriving DecidableEq

/-- Cue-phase dispatch of `run_single_trial` (experiment_run.py):
spatial arrows toward the target, a filled square in the target's wheel
color, or a blank hold for `no_cue`, each presented for
`CUE_DURATION_MS`; any other string raises
`ValueError(f"Unknown cue_type: ...")`. -/
def cue_presentation (cue_type : String) (target_pos : ℤ × ℤ)
    (target_color_deg : ℚ) : Except String (CueStim × ℤ) :=
  if cue_type = "spatial" then
    Except.ok (CueStim.spatialArrows target_pos, CUE_DURATION_MS)
  else if cue_type = "color" then
    Except.ok (CueStim.colorSquare (color_from_wheel target_color_deg),
      CUE_DURATION_MS)
  else if cue_type = "no_cue" then
    Except.ok (CueStim.blank, CUE_DURATION_MS)
  else
    Except.error ("Unknown cue_type: " ++ cue_type)

/-- One snapshot of the input devices as seen by one iteration of the
response loop of `run_single_trial`: the pointer's horizontal
coordinate, the state of mouse button 0, and the state of the spacebar.
The spacebar field records the keyboard state the environment offers;
the loop body never reads it (its own comment says
"check confirm (mouse left click OR spacebar)" but only
`exp.mouse.check_button_pressed(0)` is consulted). -/
structure RespInput where
  mouseX : ℚ
  mouseLeft : Bool
  spaceDown : Bool
deriving DecidableEq

/-- The response `while` loop of `run_single_trial`: each iteration
redraws, reads the pointer, integrates horizontal displacement into the
probe angle modulo 360 (updating the baseline only when `dx != 0`), and
exits with the current angle when mouse button 0 is down.  `none` means
the observed input prefix was exhausted with the loop still waiting. -/
def response_loop (sens : ℚ) : ℚ → ℚ → List RespInput → Option ℚ
  | _, _, [] => none
  | angle, lastX, inp :: rest =>
    let dx := inp.mouseX - lastX
    let angle2 := if dx ≠ 0 then qmod (angle + sens * dx) 360 else angle
    let lastX2 := if dx ≠ 0 then inp.mouseX else lastX
    if inp.mouseLeft then some angle2 else response_loop sens angle2 lastX2 rest

/-- Entry into the response phase: `current_angle = 90.0`, baseline =
the pointer position captured on entry, sensitivity
`ROTATION_SENSITIVITY`. -/
def run_response (initX : ℚ) (inputs : List RespInput) : Option ℚ :=
  response_loop ROTATION_SENSITIVITY 90 initX inputs

/-- The record returned by `run_single_trial` for logging. -/
structure TrialResult where
  cue_type : String
  delay : ℤ
  true_orientation : ℚ
  reported_orientation : ℚ
  offset : ℚ
deriving DecidableEq

/-- Construction of the trial record at the end of `run_single_trial`:
the offset is `axial_abs_diff(reported_orientation, target_true_ori)`,
computed by the axial fold before logging. -/
def trial_record (cue_type : String) (delay : ℤ) (true_ori reported : ℚ) :
    TrialResult :=
  { cue_type := cue_type, delay := delay, true_orientation := true_ori,
    reported_orientation := reported,
    offset := axial_abs_diff reported true_ori }

/-! Helper lemmas about the float modulus, the rounding function and the
distance metrics. -/

theorem qmod_nonneg (a b : ℚ) (hb : 0 < b) : 0 ≤ qmod a b := by
  unfold qmod
  have h1 : (⌊a / b⌋ : ℚ) ≤ a / b := Int.floor_le _
  have h2 : b * (⌊a / b⌋ : ℚ) ≤ b * (a / b) := mul_le_mul_of_nonneg_left h1 hb.le
  have h3 : b * (a / b) = a := by field_simp
  linarith

theorem qmod_lt (a b : ℚ) (hb : 0 < b) : qmod a b < b := by
  unfold qmod
  have h1 : a / b < ⌊a / b⌋ + 1 := Int.lt_floor_add_one _
  have h2 : b * (a / b) < b * ((⌊a / b⌋ : ℚ) + 1) := by
    exact mul_lt_mul_of_pos_left h1 hb
  have h3 : b * (a / b) = a := by field_simp
  have h4 : b * ((⌊a / b⌋ : ℚ) + 1) = b * ⌊a / b⌋ + b := by ring
  linarith

theorem qmod_zero (b : ℚ) : qmod 0 b = 0 := by
  simp [qmod]

theorem qmod_add_self (a b : ℚ) (hb : b ≠ 0) : qmod (a + b) b = qmod a b := by
  unfold qmod
  have h1 : (a + b) / b = a / b + 1 := by field_simp
  rw [h1, Int.floor_add_one]
  push_cast
  ring

theorem axial_abs_diff_mem (a b : ℚ) :
    0 ≤ axial_abs_diff a b ∧ axial_abs_diff a b ≤ 90 := by
  unfold axial_abs_diff
  have h0 : 0 ≤ qmod |a - b| 180 := qmod_nonneg _ _ (by norm_num)
  have h1 : qmod |a - b| 180 < 180 := qmod_lt _ _ (by norm_num)
  constructor
  · exact le_min h0 (by linarith)
  · rcases le_total (qmod |a - b| 180) 90 with h | h
    · exact (min_le_left _ _).trans h
    · exact (min_le_right _ _).trans (by linarith)

theorem pyRound_nonneg (q : ℚ) (h0 : 0 ≤ q) : 0 ≤ pyRound q := by
  have hf : (0:ℤ) ≤ ⌊q⌋ := Int.le_floor.mpr (by exact_mod_cast h0)
  unfold pyRound
  split_ifs <;> omega

theorem pyRound_le (q : ℚ) (h1 : q ≤ 255) : pyRound q ≤ 255 := by
  have hq : ⌊q⌋ ≤ 255 := by
    have h2 : ⌊q⌋ ≤ ⌊(255:ℚ)⌋ := Int.floor_le_floor h1
    have h3 : ⌊(255:ℚ)⌋ = 255 := by norm_num
    omega
  have hflo : (⌊q⌋ : ℚ) ≤ q := Int.floor_le _
  unfold pyRound
  split_ifs with ha hb hc
  · exact hq
  · have h5 : (1:ℚ)/2 ≤ q - ⌊q⌋ := not_lt.mp ha
    have h7 : (⌊q⌋ : ℚ) < 255 := by linarith
    have h8 : ⌊q⌋ < 255 := by exact_mod_cast h7
    omega
  · exact hq
  · have h5 : (1:ℚ)/2 ≤ q - ⌊q⌋ := not_lt.mp ha
    have h7 : (⌊q⌋ : ℚ) < 255 := by linarith
    have h8 : ⌊q⌋ < 255 := by exact_mod_cast h7
    omega

theorem circular_distance_comm (a b p : ℤ) :
    circular_distance a b p = circular_distance b a p := by
  unfold circular_distance
  rw [abs_sub_comm]

theorem circular_distance_self (a : ℤ) : circular_distance a a 360 = 0 := by
  unfold circular_distance
  simp

theorem randint_mem (lo hi r : ℤ) (h : lo ≤ hi) :
    lo ≤ randint lo hi r ∧ randint lo hi r ≤ hi := by
  unfold randint
  have hne : hi - lo + 1 ≠ 0 := by omega
  have hpos : 0 < hi - lo + 1 := by omega
  have h1 : 0 ≤ r % (hi - lo + 1) := Int.emod_nonneg r hne
  have h2 : r % (hi - lo + 1) < hi - lo + 1 := Int.emod_lt_of_pos r hpos
  omega

theorem hsv_chan_mem (u : ℚ) (h0 : 0 ≤ u) (h1 : u ≤ 1) :
    0 ≤ pyRound ((u + (1 - 1 * 1)) * 255) ∧ pyRound ((u + (1 - 1 * 1)) * 255) ≤ 255 :=
  ⟨pyRound_nonneg _ (by linarith), pyRound_le _ (by linarith)⟩

set_option maxHeartbeats 1000000 in
theorem hsvCore_comp_mem (hdeg : ℚ) :
    (0 ≤ (hsvCore hdeg 1 1).1 ∧ (hsvCore hdeg 1 1).1 ≤ 255)
    ∧ (0 ≤ (hsvCore hdeg 1 1).2.1 ∧ (hsvCore hdeg 1 1).2.1 ≤ 255)
    ∧ (0 ≤ (hsvCore hdeg 1 1).2.2 ∧ (hsvCore hdeg 1 1).2.2 ≤ 255) := by
  have hq0 : 0 ≤ qmod (hdeg / 60) 2 := qmod_nonneg _ _ (by norm_num)
  have hq2 : qmod (hdeg / 60) 2 < 2 := qmod_lt _ _ (by norm_num)
  have habs1 : |qmod (hdeg / 60) 2 - 1| ≤ 1 := abs_le.mpr ⟨by linarith, by linarith⟩
  have habs0 : 0 ≤ |qmod (hdeg / 60) 2 - 1| := abs_nonneg _
  have hc : 0 ≤ (1:ℚ) * 1 ∧ (1:ℚ) * 1 ≤ 1 := by norm_num
  have hx : 0 ≤ 1 * 1 * (1 - |qmod (hdeg / 60) 2 - 1|)
      ∧ 1 * 1 * (1 - |qmod (hdeg / 60) 2 - 1|) ≤ 1 := by constructor <;> nlinarith
  have hz : 0 ≤ (0:ℚ) ∧ (0:ℚ) ≤ 1 := by norm_num
  simp only [hsvCore]
  split_ifs
  · exact ⟨hsv_chan_mem _ hc.1 hc.2, hsv_chan_mem _ hx.1 hx.2, hsv_chan_mem _ hz.1 hz.2⟩
  · exact ⟨hsv_chan_mem _ hx.1 hx.2, hsv_chan_mem _ hc.1 hc.2, hsv_chan_mem _ hz.1 hz.2⟩
  · exact ⟨hsv_chan_mem _ hz.1 hz.2, hsv_chan_mem _ hc.1 hc.2, hsv_chan_mem _ hx.1 hx.2⟩
  · exact ⟨hsv_chan_mem _ hz.1 hz.2, hsv_chan_mem _ hx.1 hx.2, hsv_chan_mem _ hc.1 hc.2⟩
  · exact ⟨hsv_chan_mem _ hx.1 hx.2, hsv_chan_mem _ hz.1 hz.2, hsv_chan_mem _ hc.1 hc.2⟩
  · exact ⟨hsv_chan_mem _ hc.1 hc.2, hsv_chan_mem _ hz.1 hz.2, hsv_chan_mem _ hx.1 hx.2⟩

/-- Claim C3: the error metric `axial_abs_diff` lies in `[0, 90]`, is
symmetric, vanishes on equal angles and on angles 180 degrees apart, and
evaluates to 0, 90 and 5 on the pairs (10, 190), (0, 90) and (45, 50). -/
theorem axial_abs_diff_spec (a b : ℚ) :
    (0 ≤ axial_abs_diff a b ∧ axial_abs_diff a b ≤ 90)
    ∧ axial_abs_diff a b = axial_abs_diff b a
    ∧ axial_abs_diff a a = 0
    ∧ axial_abs_diff a (a + 180) = 0
    ∧ axial_abs_diff 10 190 = 0
    ∧ axial_abs_diff 0 90 = 90
    ∧ axial_abs_diff 45 50 = 5 := by
  refine ⟨axial_abs_diff_mem a b, ?_, ?_, ?_, ?_, ?_, ?_⟩
  · unfold axial_abs_diff
    rw [abs_sub_comm]
  · unfold axial_abs_diff
    rw [sub_self, abs_zero, qmod_zero]
    norm_num
  · have h1 : |a - (a + 180)| = (180:ℚ) := by
      rw [show a - (a + 180) = -180 by ring]
      norm_num
    have h2 : qmod 180 180 = 0 := by
      have h3 := qmod_add_self 0 180 (by norm_num)
      rw [zero_add, qmod_zero] at h3
      exact h3
    unfold axial_abs_diff
    rw [h1, h2]
    norm_num
  · norm_num [axial_abs_diff, qmod, min_def]
  · norm_num [axial_abs_diff, qmod, min_def]
  · norm_num [axial_abs_diff, qmod, min_def]

/-- Claim C7: every channel of the color wheel mapper stays in
`[0, 255]`, the mapping is 360-periodic, and hues 0, 120 and 240 map to
the primary colors red, green and blue. -/
theorem color_from_wheel_spec (h : ℚ) :
    (0 ≤ (color_from_wheel h).1 ∧ (color_from_wheel h).1 ≤ 255)
    ∧ (0 ≤ (color_from_wheel h).2.1 ∧ (color_from_wheel h).2.1 ≤ 255)
    ∧ (0 ≤ (color_from_wheel h).2.2 ∧ (color_from_wheel h).2.2 ≤ 255)
    ∧ color_from_wheel (h + 360) = color_from_wheel h
    ∧ color_from_wheel 0 = (255, 0, 0)
    ∧ color_from_wheel 120 = (0, 255, 0)
    ∧ color_from_wheel 240 = (0, 0, 255) := by
  refine ⟨(hsvCore_comp_mem (qmod h 360)).1, (hsvCore_comp_mem (qmod h 360)).2.1,
    (hsvCore_comp_mem (qmod h 360)).2.2, ?_, ?_, ?_, ?_⟩
  · unfold color_from_wheel hsv_to_rgb
    rw [qmod_add_self h 360 (by norm_num)]
  · norm_num [color_from_wheel, hsv_to_rgb, hsvCore, qmod, pyRound]
  · norm_num [color_from_wheel, hsv_to_rgb, hsvCore, qmod, pyRound]
  · norm_num [color_from_wheel, hsv_to_rgb, hsvCore, qmod, pyRound]

theorem sample_loop_sound (accept : List ℤ → ℤ → Bool) (R : ℤ → ℤ → Prop)
    (P : ℤ → Prop) (n : ℕ) (lo hi : ℤ) (s : ℕ → ℤ)
    (hA : ∀ chosen cand, accept chosen cand = true → ∀ prev ∈ chosen, R prev cand)
    (hP : ∀ r : ℤ, P (randint lo hi r)) :
    ∀ (fuel k : ℕ) (chosen l : List ℤ),
      chosen.length ≤ n → (∀ x ∈ chosen, P x) → chosen.Pairwise R →
      sample_loop accept n lo hi s fuel k chosen = some l →
      l.length = n ∧ (∀ x ∈ l, P x) ∧ l.Pairwise R := by
  intro fuel
  induction fuel with
  | zero =>
    intro k chosen l hlen hPc hRc hrun
    rw [sample_loop] at hrun
    split at hrun
    · cases hrun
      exact ⟨le_antisymm hlen (by assumption), hPc, hRc⟩
    · cases hrun
  | succ fuel ih =>
    intro k chosen l hlen hPc hRc hrun
    rw [sample_loop] at hrun
    split at hrun
    · cases hrun
      exact ⟨le_antisymm hlen (by assumption), hPc, hRc⟩
    · rename_i hnot
      split at hrun
      · rename_i hacc
        refine ih (k + 1) (chosen ++ [randint lo hi (s k)]) l ?_ ?_ ?_ hrun
        · rw [List.length_append, List.length_singleton]
          omega
        · intro x hx
          rcases List.mem_append.mp hx with hx | hx
          · exact hPc x hx
          · rw [List.mem_singleton.mp hx]
            exact hP (s k)
        · refine List.pairwise_append.mpr ⟨hRc, List.pairwise_singleton _ _, ?_⟩
          intro x hx y hy
          rw [List.mem_singleton.mp hy]
          exact hA chosen _ hacc x hx
      · exact ih (k + 1) chosen l hlen hPc hRc hrun

/-- Claim C1, counterexample: the orientation sampler accepts the array
`[1, 179, 90, 45]` (here with the raw random stream `[0, 178, 89, 44]`,
i.e. `random.randint` returning 1, 179, 90, 45), although 1 and 179 are
only 2 degrees apart under the axial metric `min(d, 180 - d)`: the
acceptance test uses plain `abs(cand - prev)`, with no mod-180 fold. -/
theorem sample_orientations_axial_counterexample :
    sample_orientations 4 (fun k => ([0, 178, 89, 44].getD k 0 : ℤ)) 4 30 1 180
      = some [1, 179, 90, 45]
    ∧ axial_abs_diff 1 179 < 30 := by
  constructor
  · decide
  · norm_num [axial_abs_diff, qmod, min_def]

/-- Claim C1, amended: every array produced by the orientation sampler
with `n = 4`, `min_sep = 30`, `lo = 1`, `hi = 180` has 4 values, all in
`[1, 180]`, and every pair is at least 30 apart under the plain linear
absolute difference (no axial folding is applied by the code). -/
theorem sample_orientations_linear_separation (fuel : ℕ) (s : ℕ → ℤ) (l : List ℤ)
    (hrun : sample_orientations fuel s 4 30 1 180 = some l) :
    l.length = 4 ∧ (∀ x ∈ l, 1 ≤ x ∧ x ≤ 180)
    ∧ l.Pairwise (fun a b => 30 ≤ |a - b|) := by
  refine sample_loop_sound (ori_accept 30) (fun a b => (30:ℤ) ≤ |a - b|)
      (fun x => 1 ≤ x ∧ x ≤ 180) 4 1 180 s ?_ ?_ fuel 0 [] l (by simp) (by simp)
      List.Pairwise.nil hrun
  · intro chosen cand hacc prev hprev
    simp only [ori_accept, List.all_eq_true, decide_eq_true_eq] at hacc
    rw [abs_sub_comm]
    exact hacc prev hprev
  · intro r
    exact randint_mem 1 180 r (by norm_num)

/-- Witness for the amended claim C1 at a concrete run of the sampler. -/
theorem sample_orientations_linear_separation_witness :
    List.Pairwise (fun a b => (30:ℤ) ≤ |a - b|) [31, 61, 1, 91] :=
  (sample_orientations_linear_separation 4 (fun k => ([30, 60, 0, 90].getD k 0 : ℤ))
    [31, 61, 1, 91] (by decide)).2.2

theorem ori_reject_stuck :
    ∀ fuel k : ℕ,
      sample_loop (ori_accept 30) 2 1 180 (fun _ => 0) fuel k [1] = none := by
  intro fuel
  induction fuel with
  | zero => intro k; rw [sample_loop]; norm_num
  | succ fuel ih =>
    intro k
    have hacc : ori_accept 30 [1] (randint 1 180 0) = false := by decide
    rw [sample_loop]
    rw [if_neg (by norm_num : ¬ (2 ≤ ([(1:ℤ)]).length))]
    simp only [hacc]
    rw [if_neg (by simp)]
    exact ih (k + 1)

theorem col_reject_stuck :
    ∀ fuel k : ℕ,
      sample_loop (col_accept 60) 2 1 360 (fun _ => 0) fuel k [1] = none := by
  intro fuel
  induction fuel with
  | zero => intro k; rw [sample_loop]; norm_num
  | succ fuel ih =>
    intro k
    have hacc : col_accept 60 [1] (randint 1 360 0) = false := by decide
    rw [sample_loop]
    rw [if_neg (by norm_num : ¬ (2 ≤ ([(1:ℤ)]).length))]
    simp only [hacc]
    rw [if_neg (by simp)]
    exact ih (k + 1)

/-- Claim C2: the sampling loops have no retry bound and no failure
path.  With a random stream that keeps returning a value rejected
against the already-chosen one (here: `random.randint` returning 1 on
every call, `n = 2`), both samplers are still running after every finite
number of loop iterations: the code can only loop, it never raises a
`SamplingInfeasible` error (no such error exists in the source). -/
theorem sample_unbounded_no_failure (fuel : ℕ) :
    sample_orientations fuel (fun _ => 0) 2 30 1 180 = none
    ∧ sample_colors fuel (fun _ => 0) 2 60 1 360 = none := by
  constructor
  · cases fuel with
    | zero => decide
    | succ fuel =>
      have hacc : ori_accept 30 [] (randint 1 180 0) = true := by decide
      unfold sample_orientations
      rw [sample_loop]
      rw [if_neg (by norm_num : ¬ (2 ≤ ([] : List ℤ).length))]
      simp only [hacc, if_true]
      have h1 : ([] : List ℤ) ++ [randint 1 180 0] = [1] := by decide
      rw [h1]
      exact ori_reject_stuck fuel 1
  · cases fuel with
    | zero => decide
    | succ fuel =>
      have hacc : col_accept 60 [] (randint 1 360 0) = true := by decide
      unfold sample_colors
      rw [sample_loop]
      rw [if_neg (by norm_num : ¬ (2 ≤ ([] : List ℤ).length))]
      simp only [hacc, if_true]
      have h1 : ([] : List ℤ) ++ [randint 1 360 0] = [1] := by decide
      rw [h1]
      exact col_reject_stuck fuel 1

/-- Claim C6: every list produced by the hue sampler has exactly `n`
elements, each an integer in `[lo, hi]`, every pair at circular distance
(period 360) at least `min_sep`; for a positive `min_sep` the elements
are pairwise distinct. -/
theorem sample_colors_spec (fuel : ℕ) (s : ℕ → ℤ) (n : ℕ) (minSep lo hi : ℤ)
    (l : List ℤ) (hlh : lo ≤ hi)
    (hrun : sample_colors fuel s n minSep lo hi = some l) :
    l.length = n ∧ (∀ x ∈ l, lo ≤ x ∧ x ≤ hi)
    ∧ l.Pairwise (fun a b => minSep ≤ circular_distance a b 360)
    ∧ (0 < minSep → l.Nodup) := by
  have hA : ∀ chosen cand, col_accept minSep chosen cand = true →
      ∀ prev ∈ chosen, minSep ≤ circular_distance prev cand 360 := by
    intro chosen cand hacc prev hprev
    simp only [col_accept, List.all_eq_true, decide_eq_true_eq] at hacc
    rw [circular_distance_comm]
    exact hacc prev hprev
  have hP : ∀ r : ℤ, lo ≤ randint lo hi r ∧ randint lo hi r ≤ hi :=
    fun r => randint_mem lo hi r hlh
  have base := sample_loop_sound (col_accept minSep)
      (fun a b => minSep ≤ circular_distance a b 360)
      (fun x => lo ≤ x ∧ x ≤ hi) n lo hi s hA hP fuel 0 [] l
      (by simp) (by simp) List.Pairwise.nil hrun
  refine ⟨base.1, base.2.1, base.2.2, ?_⟩
  intro hpos
  refine base.2.2.imp ?_
  intro a b hR hab
  rw [hab, circular_distance_self] at hR
  omega

/-- Witness for claim C6 at a concrete run of the hue sampler. -/
theorem sample_colors_spec_witness :
    List.Pairwise (fun a b => (60:ℤ) ≤ circular_distance a b 360)
      [60, 120, 180, 240] :=
  (sample_colors_spec 4 (fun k => ([59, 119, 179, 239].getD k 0 : ℤ)) 4 60 1 360
    [60, 120, 180, 240] (by norm_num) (by decide)).2.2.1

set_option maxRecDepth 40000 in
/-- Claim C5: any shuffle of the built trial list is a permutation of
the full factorial design: 420 trials, 140 per cue type, 84 per delay,
and 28 per (cue type, delay) combination. -/
theorem build_trial_list_spec (l : List Trial) (hp : l.Perm build_trial_list) :
    l.length = 420
    ∧ (∀ c, c ∈ CUE_TYPES → (l.countP fun t => decide (t.cue_type = c)) = 140)
    ∧ (∀ d, d ∈ CUE_PROBE_DELAYS_MS → (l.countP fun t => decide (t.delay = d)) = 84)
    ∧ (∀ c d, c ∈ CUE_TYPES → d ∈ CUE_PROBE_DELAYS_MS →
        l.count (⟨c, d⟩ : Trial) = 28) := by
  refine ⟨?_, ?_, ?_, ?_⟩
  · rw [hp.length_eq]
    decide
  · intro c hc
    rw [hp.countP_eq]
    simp only [CUE_TYPES, List.mem_cons, List.not_mem_nil, or_false] at hc
    rcases hc with h | h | h <;> subst h <;> decide
  · intro d hd
    rw [hp.countP_eq]
    simp only [CUE_PROBE_DELAYS_MS, List.mem_cons, List.not_mem_nil, or_false] at hd
    rcases hd with h | h | h | h | h <;> subst h <;> decide
  · intro c d hc hd
    rw [hp.count_eq]
    simp only [CUE_TYPES, CUE_PROBE_DELAYS_MS, List.mem_cons, List.not_mem_nil,
      or_false] at hc hd
    rcases hc with h | h | h <;> subst h <;>
      (rcases hd with h | h | h | h | h <;> subst h <;> decide)

set_option maxRecDepth 40000 in
/-- Witness for claim C5 with the identity permutation. -/
theorem build_trial_list_spec_witness :
    build_trial_list.length = 420
    ∧ build_trial_list.count (⟨"spatial", 50⟩ : Trial) = 28 :=
  ⟨(build_trial_list_spec build_trial_list (List.Perm.refl _)).1,
   (build_trial_list_spec build_trial_list (List.Perm.refl _)).2.2.2 "spatial" 50
     (by decide) (by decide)⟩

theorem wait_total_append (l1 l2 : List ScreenEvent) :
    wait_total (l1 ++ l2) = wait_total l1 + wait_total l2 := by
  induction l1 with
  | nil => simp [wait_total]
  | cons e rest ih => cases e <;> simp [wait_total, ih, add_assoc]

theorem wait_total_map_draw (l : List ℕ) :
    wait_total (l.map ScreenEvent.draw) = 0 := by
  induction l with
  | nil => simp [wait_total]
  | cons e rest ih => simp [wait_total, ih]

theorem wait_total_timed_draw (stims : List ℕ) :
    wait_total (timed_draw stims) = 0 := by
  unfold timed_draw blit_to_backbuffer
  rw [wait_total_append]
  simp [wait_total, wait_total_map_draw]

/-- Claim C4: `present_for_ms` returns immediately with no drawing and
no waiting when the requested duration is non-positive; for a positive
duration it draws each stimulus and flips exactly once, blocks for
exactly `max 0 (duration - draw_time)`, the total elapsed time is at
least the requested duration, and a draw overrun leads to no wait at
all. -/
theorem present_for_ms_spec (stims : List ℕ) (draw_time d : ℚ) :
    (d ≤ 0 → present_for_ms stims draw_time d = []
      ∧ present_elapsed_ms draw_time d = 0)
    ∧ (0 < d →
        (present_for_ms stims draw_time d).countP isFlipEvent = 1
        ∧ (present_for_ms stims draw_time d).countP isDrawEvent = stims.length
        ∧ wait_total (present_for_ms stims draw_time d) = max 0 (d - draw_time)
        ∧ d ≤ present_elapsed_ms draw_time d
        ∧ (d ≤ draw_time →
            (present_for_ms stims draw_time d).countP isWaitEvent = 0)) := by
  constructor
  · intro h
    simp [present_for_ms, present_elapsed_ms, h]
  · intro h
    have hd : ¬ d ≤ 0 := not_le.mpr h
    unfold present_for_ms present_elapsed_ms
    rw [if_neg hd, if_neg hd]
    by_cases hrem : 0 < d - draw_time
    · rw [if_pos hrem, if_pos hrem]
      refine ⟨?_, ?_, ?_, by linarith, ?_⟩
      · simp [timed_draw, blit_to_backbuffer, List.countP_append, List.countP_cons,
          List.countP_map, Function.comp, isFlipEvent, List.countP_false]
      · simp [timed_draw, blit_to_backbuffer, List.countP_append, List.countP_cons,
          List.countP_map, Function.comp, isDrawEvent, List.countP_true]
      · rw [wait_total_append, wait_total_timed_draw]
        rw [max_eq_right hrem.le]
        simp [wait_total]
      · intro hle
        exact absurd hrem (by linarith)
    · rw [if_neg hrem, if_neg hrem]
      refine ⟨?_, ?_, ?_, by linarith, ?_⟩
      · simp [timed_draw, blit_to_backbuffer, List.countP_append, List.countP_cons,
          List.countP_map, Function.comp, isFlipEvent, List.countP_false]
      · simp [timed_draw, blit_to_backbuffer, List.countP_append, List.countP_cons,
          List.countP_map, Function.comp, isDrawEvent, List.countP_true]
      · rw [List.append_nil, wait_total_timed_draw]
        rw [max_eq_left (by linarith)]
      · intro _
        simp [timed_draw, blit_to_backbuffer, List.countP_append, List.countP_cons,
          List.countP_map, Function.comp, isWaitEvent, List.countP_false]

/-- Witness for claim C4 at a zero duration and at a 100 ms duration
with 5 ms draw time. -/
theorem present_for_ms_spec_witness :
    present_for_ms [1, 2] 5 0 = []
    ∧ wait_total (present_for_ms [1, 2] 5 100) = max 0 (100 - 5)
    ∧ (100:ℚ) ≤ present_elapsed_ms 5 100 :=
  ⟨((present_for_ms_spec [1, 2] 5 0).1 (by norm_num)).1,
   ((present_for_ms_spec [1, 2] 5 100).2 (by norm_num)).2.2.1,
   ((present_for_ms_spec [1, 2] 5 100).2 (by norm_num)).2.2.2.1⟩

/-- Claim C8: the cue phase succeeds exactly on the three cue types of
`CUE_TYPES` (any other string raises the fatal unknown-cue-type error),
and each valid cue type presents its stimuli — spatial arrows, a wheel
colored square, or a blank hold — for the same `CUE_DURATION_MS`. -/
theorem cue_presentation_spec (c : String) (pos : ℤ × ℤ) (col : ℚ) :
    ((cue_presentation c pos col).isOk = true ↔ c ∈ CUE_TYPES)
    ∧ cue_presentation "spatial" pos col
        = Except.ok (CueStim.spatialArrows pos, CUE_DURATION_MS)
    ∧ cue_presentation "color" pos col
        = Except.ok (CueStim.colorSquare (color_from_wheel col), CUE_DURATION_MS)
    ∧ cue_presentation "no_cue" pos col
        = Except.ok (CueStim.blank, CUE_DURATION_MS) := by
  refine ⟨?_, rfl, rfl, rfl⟩
  unfold cue_presentation
  split_ifs <;>
    simp_all [CUE_TYPES, Except.isOk, Except.toBool]

theorem response_loop_angle_mem (sens : ℚ) :
    ∀ (inputs : List RespInput) (angle lastX r : ℚ),
      0 ≤ angle → angle < 360 →
      response_loop sens angle lastX inputs = some r →
      0 ≤ r ∧ r < 360 := by
  intro inputs
  induction inputs with
  | nil =>
    intro angle lastX r _ _ hrun
    simp [response_loop] at hrun
  | cons inp rest ih =>
    intro angle lastX r h0 h1 hrun
    simp only [response_loop] at hrun
    have hmem :
        (0 ≤ if inp.mouseX - lastX ≠ 0 then
            qmod (angle + sens * (inp.mouseX - lastX)) 360 else angle)
        ∧ (if inp.mouseX - lastX ≠ 0 then
            qmod (angle + sens * (inp.mouseX - lastX)) 360 else angle) < 360 := by
      split
      · exact ⟨qmod_nonneg _ _ (by norm_num), qmod_lt _ _ (by norm_num)⟩
      · exact ⟨h0, h1⟩
    split at hrun
    · cases hrun
      exact hmem
    · exact ih _ _ r hmem.1 hmem.2 hrun

/-- Claim C9, evaluated at the failing input: one response-loop
iteration in which the pointer has not moved, mouse button 0 is up and
the spacebar is down leaves the loop still waiting (`none`), while the
same iteration with a mouse click ends it with the current angle 90.
Only the mouse button confirms; the spacebar promised by the loop's own
comment is never read. -/
theorem response_confirm_click_only :
    run_response 0 [⟨0, false, true⟩] = none
    ∧ run_response 0 [⟨0, true, false⟩] = some 90 := by
  constructor
  · norm_num [run_response, response_loop]
  · norm_num [run_response, response_loop]

/-- Claim C10: in every logged record, the reported orientation lies in
`[0, 360)` (it stays on the full circle: orientations of at least 180
are reachable, as the last conjunct shows) while the offset is folded
into `[0, 90]` by `axial_abs_diff` before logging. -/
theorem trial_record_ranges (c : String) (d : ℤ) (t initX : ℚ)
    (inputs : List RespInput) (r : ℚ)
    (h : run_response initX inputs = some r) :
    0 ≤ (trial_record c d t r).reported_orientation
    ∧ (trial_record c d t r).reported_orientation < 360
    ∧ 0 ≤ (trial_record c d t r).offset
    ∧ (trial_record c d t r).offset ≤ 90
    ∧ ∃ iX inps rr, run_response iX inps = some rr ∧ (180:ℚ) ≤ rr := by
  have hb := response_loop_angle_mem ROTATION_SENSITIVITY inputs 90 initX r
    (by norm_num) (by norm_num) h
  have ha := axial_abs_diff_mem r t
  refine ⟨hb.1, hb.2, ha.1, ha.2, ⟨0, [⟨250, true, false⟩], 190, ?_, by norm_num⟩⟩
  norm_num [run_response, response_loop, ROTATION_SENSITIVITY, qmod]

/-- Witness for claim C10 at a concrete confirmed response. -/
theorem trial_record_ranges_witness :
    0 ≤ (trial_record "spatial" 50 10 90).reported_orientation
    ∧ (trial_record "spatial" 50 10 90).offset ≤ 90 :=
  ⟨(trial_record_ranges "spatial" 50 10 0 [⟨0, true, false⟩] 90
      (by norm_num [run_response, response_loop])).1,
   (trial_record_ranges "spatial" 50 10 0 [⟨0, true, false⟩] 90
      (by norm_num [run_response, response_loop])).2.2.2.1⟩
